import Mathlib

/-!
Verification development for the PyWarnFixer warning-remediation engine
(src/pywarnfixer/fixes/fixes.py and src/pywarnfixer/fixes/anthropic_api.py).

Python strings are modelled as lists of characters (`PyStr`); files are the
string of their contents, with newline-separated lines.  Python-level
exceptions are modelled by `PyErr`; a function that can raise returns
`Except PyErr _` (or pairs its result with `Option PyErr` when the on-disk
state at raise time matters).  External effects are oracle parameters:
`compilePy` stands for the CPython `compile` builtin, an `Option PyNode`
stands for the result of `ast.parse` (with `none` for a `SyntaxError`), and
`api` stands for the raw text returned by the Anthropic messages endpoint.
All definitions are translated from the repository source; the few
definitions that instead follow the specification text (for comparison
against the source behaviour) say so in their doc comment.
-/

/-- A Python string, modelled as its list of characters. -/
abbrev PyStr := List Char

/-- Python whitespace test used by `str.strip`, `str.lstrip` and by the
regular-expression class `\s` (ASCII range): space, tab, newline, carriage
return, vertical tab and form feed. -/
def isPySpace (c : Char) : Bool :=
  c == ' ' || c == '\t' || c == '\n' || c == '\r' || c == Char.ofNat 11 || c == Char.ofNat 12

/-- `s.lstrip()`. -/
def pyLstrip (s : PyStr) : PyStr := s.dropWhile isPySpace

/-- `s.rstrip()`. -/
def pyRstrip (s : PyStr) : PyStr := (s.reverse.dropWhile isPySpace).reverse

/-- `s.strip()`. -/
def pyStrip (s : PyStr) : PyStr := pyRstrip (pyLstrip s)

/-- A line is blank exactly when `line.strip()` is falsy, i.e. every
character is whitespace. -/
def isBlank (l : PyStr) : Bool := l.all isPySpace

/-- `s.split(sep)` for a one-character separator `sep` (no maxsplit):
always returns a non-empty list, and splitting the empty string yields
one empty field, as in Python. -/
def pySplitChar (sep : Char) : PyStr → List PyStr
  | [] => [[]]
  | c :: cs =>
    if c = sep then [] :: pySplitChar sep cs
    else
      match pySplitChar sep cs with
      | [] => [[c]]
      | l :: ls => (c :: l) :: ls

/-- `s.split('\n')`, used by `extract_method_from_line`, `add_indentation`
and `get_starting_indentation`. -/
def splitNL (s : PyStr) : List PyStr := pySplitChar '\n' s

/-- `'\n'.join`-style inverse of `splitNL`: interleaves a newline between
consecutive lines. -/
def joinNL : List PyStr → PyStr
  | [] => []
  | [l] => l
  | l :: ls => l ++ '\n' :: joinNL ls

/-- `file.readlines()` (and iteration over a file object): the lines of the
content, each keeping its trailing newline; a final unterminated line is
kept without one, and an empty file gives no lines.  The model assumes
newline-only line endings. -/
def readlines (s : PyStr) : List PyStr :=
  let parts := splitNL s
  (parts.dropLast.map (fun l => l ++ ['\n'])) ++
    (if parts.getLastD [] = [] then [] else [parts.getLastD []])

/-- Python list indexing `xs[i]` with an `int` index: negative indices count
from the end; `none` models the `IndexError` raised when the (normalised)
index is out of range. -/
def pyGet {α : Type} (xs : List α) (i : Int) : Option α :=
  let j := if i < 0 then i + xs.length else i
  if 0 ≤ j ∧ j < (xs.length : Int) then xs[j.toNat]? else none

/-- Normalisation of a Python slice bound to an index into a list of
length `n`: negative bounds count from the end and everything is clamped
into `[0, n]`. -/
def pySliceIdx (n : Nat) (i : Int) : Nat :=
  if i < 0 then (max (i + n) 0).toNat else min i.toNat n

/-- Python slicing `xs[a:b]`. -/
def pySliceList {α : Type} (xs : List α) (a b : Int) : List α :=
  (xs.take (pySliceIdx xs.length b)).drop (pySliceIdx xs.length a)

/-- Python `del xs[a:b]`: removes the slice, keeping everything before the
normalised `a` and from the normalised `b` on. -/
def pyDelSlice {α : Type} (xs : List α) (a b : Int) : List α :=
  let i := pySliceIdx xs.length a
  let j := pySliceIdx xs.length b
  xs.take i ++ xs.drop (max i j)

/-- Python `xs.insert(i, x)`: the insertion point is the index `i`
normalised the same way as a slice bound. -/
def pyInsert {α : Type} (xs : List α) (i : Int) (x : α) : List α :=
  let k := pySliceIdx xs.length i
  xs.take k ++ x :: xs.drop k

/-- ASCII decimal digit test. -/
def pyDigit (c : Char) : Bool := '0' ≤ c && c ≤ '9'

/-- No two consecutive underscores (part of the validity check for Python
integer literals with digit grouping). -/
def noDoubleUnderscore : PyStr → Bool
  | [] => true
  | [_] => true
  | a :: b :: rest => !(a == '_' && b == '_') && noDoubleUnderscore (b :: rest)

/-- A non-empty digit sequence, optionally with single underscores between
digits, as accepted by Python `int` after sign and whitespace handling
(ASCII digits; the model ignores non-ASCII digit characters). -/
def digitsOk (s : PyStr) : Bool :=
  match s with
  | [] => false
  | c :: _ => pyDigit c && pyDigit (s.getLastD '0') &&
      s.all (fun d => pyDigit d || d == '_') && noDoubleUnderscore s

/-- Numeric value of the digit characters of `s` (underscores ignored). -/
def digitsToNat (s : PyStr) : Nat :=
  (s.filter pyDigit).foldl (fun a c => a * 10 + (c.toNat - ('0').toNat)) 0

/-- Python `int(s)` on a string: strips surrounding whitespace, accepts an
optional sign and a digit sequence; `none` models the `ValueError` raised
on anything else. -/
def pyInt (s : PyStr) : Option Int :=
  match pyStrip s with
  | '+' :: rest => if digitsOk rest then some (digitsToNat rest) else none
  | '-' :: rest => if digitsOk rest then some (-(digitsToNat rest : Int)) else none
  | t => if digitsOk t then some (digitsToNat t) else none

/-- Python-level exceptions that the modelled code can raise. -/
inductive PyErr where
  | indexError
  | syntaxError
  | assertionError
deriving DecidableEq

/-- The `Context` enum of src/pywarnfixer/fixes/context.py. -/
inductive Context where
  | LINE
  | METHOD
  | CLASS
  | FILE
  | MODULE
  | PROJECT
deriving DecidableEq

/-- The default system prompt of src/pywarnfixer/fixes/pylint_fix.py
(adjacent string literals concatenated, as in the source). -/
def DEFAULT_PROMPT : PyStr :=
  ("Your task is to analyze the provided pylint warning and Python code snippet and provide a corrected version of the code that resolves the warning. The corrected code should be functional in a bigger context, efficient, and adhere to best practices in Python programming. Keep in mind that it is a snippet from a bigger script, therefore keep things such as indentation level and ending commas such that it still works in the broader context and don\x27t add imports, packages, new classes or new functions. If a function or package is getting called, assume that it already exists and is imported. You can also assume that the code is syntactically correct and the only issue is the pylint warning. ").data

/-- The `PylintFix` class of src/pywarnfixer/fixes/pylint_fix.py, fields in
constructor order: name, code, prompt, context. -/
structure PylintFix where
  name : PyStr
  code : PyStr
  prompt : PyStr
  context : Context

/-- The `PYLINT_FIXES` registry of src/pywarnfixer/fixes/fixes.py lines
12-23 (every entry uses the default prompt). -/
def PYLINT_FIXES : List PylintFix :=
  [ ⟨("no-else-return").data, ("R1705").data, DEFAULT_PROMPT, Context.METHOD⟩,
    ⟨("unspecified-encoding").data, ("W1514").data, DEFAULT_PROMPT, Context.METHOD⟩,
    ⟨("use-implicit-booleaness-not-comparison").data, ("C1803").data, DEFAULT_PROMPT, Context.LINE⟩,
    ⟨("consider-using-with").data, ("R1732").data, DEFAULT_PROMPT, Context.METHOD⟩,
    ⟨("unnecessary-comprehension").data, ("R1721").data, DEFAULT_PROMPT, Context.LINE⟩,
    ⟨("consider-using-in").data, ("R1714").data, DEFAULT_PROMPT, Context.LINE⟩,
    ⟨("chained-comparison").data, ("R1716").data, DEFAULT_PROMPT, Context.LINE⟩,
    ⟨("useless-return").data, ("R1711").data, DEFAULT_PROMPT, Context.METHOD⟩,
    ⟨("no-else-break").data, ("R1723").data, DEFAULT_PROMPT, Context.METHOD⟩,
    ⟨("consider-using-ternary").data, ("R1706").data, DEFAULT_PROMPT, Context.LINE⟩ ]

/-- A parsed pylint warning, the dictionary built by
`parse_pylint_warnings` (fixes.py lines 100-106). -/
structure Warning where
  file_path : PyStr
  line_number : Int
  character : PyStr
  error_code : PyStr
  error_message : PyStr
deriving DecidableEq

/-- Processing of one report line inside the loop of
`parse_pylint_warnings` (fixes.py lines 89-108): the line is stripped and
split on colons; with at least five fields and a successfully parsed line
number a `Warning` is appended, a `ValueError` from `int` logs a warning
and skips the line, and a line with fewer than five fields is skipped
without logging.  The second component records whether the skip-warning
was logged for this line. -/
def processLine (line : PyStr) : Option Warning × Bool :=
  let parts := pySplitChar ':' (pyStrip line)
  if 5 ≤ parts.length then
    match pyInt (parts.getD 1 []) with
    | some n =>
        (some ⟨pyStrip (parts.getD 0 []), n, pyStrip (parts.getD 2 []),
          pyStrip (parts.getD 3 []), pyStrip (parts.getD 4 [])⟩, false)
    | none => (none, true)
  else (none, false)

/-- `parse_pylint_warnings` (fixes.py lines 77-109) on the report file
content: the parsed warnings in report order, paired with the list of
lines whose failed parse was logged. -/
def parse_pylint_warnings (input : PyStr) : List Warning × List PyStr :=
  ((readlines input).filterMap (fun l => (processLine l).1),
    (readlines input).filter (fun l => (processLine l).2))

/-- The iteration order of the warning loop of `auto_fix` (fixes.py line
46): `for warning in reversed(warnings)`. -/
def warning_processing_order (warnings : List Warning) : List Warning :=
  warnings.reverse

/-- The literal string of the regex head of anthropic_api.py line 49:
three backticks followed by the word python. -/
def pyFence : PyStr := ("```python").data

/-- Length of the maximal whitespace run at the head of `s`: the longest
match of `\s+` starting here. -/
def wsRun : PyStr → Nat
  | [] => 0
  | c :: cs => if isPySpace c then wsRun cs + 1 else 0

/-- Greedy search for the length of the second `\s+` of the pattern
of anthropic_api.py line 49: the largest `v` with `1 ≤ v ≤` the given
bound such that the closing three backticks start right after `v`
whitespace characters of `s`. -/
def findV (s : PyStr) : Nat → Option Nat
  | 0 => none
  | v + 1 =>
    if (("```").data).isPrefixOf (s.drop (v + 1)) then some (v + 1)
    else findV s v

/-- Lazy search for the group `(.*?)` (with `re.DOTALL`): `g` grows from 0
and, for each `g`, the following `\s+` is matched greedily. -/
def findG (s : PyStr) (g fuel : Nat) : Option (Nat × Nat) :=
  match fuel with
  | 0 => none
  | f + 1 =>
    match findV (s.drop g) (wsRun (s.drop g)) with
    | some v => some (g, v)
    | none => findG s (g + 1) f

/-- Greedy search for the first `\s+` after the fence: `u` shrinks from the
maximal whitespace run, and for each `u` the rest of the pattern is tried
in backtracking order. -/
def findU (tail : PyStr) : Nat → Option (Nat × Nat × Nat)
  | 0 => none
  | u + 1 =>
    match findG (tail.drop (u + 1)) 0 (tail.length + 1) with
    | some (g, v) => some (u + 1, g, v)
    | none => findU tail u

/-- A match of the pattern ```` ```python\s+(.*?)\s+``` ```` (re.DOTALL)
anchored at position `p` of `text`, in the backtracking order of the
Python `re` engine; returns the text of group 1 on success. -/
def matchAt (text : PyStr) (p : Nat) : Option PyStr :=
  let rest := text.drop p
  if pyFence.isPrefixOf rest then
    let tail := rest.drop 9
    match findU tail (wsRun tail) with
    | some (u, g, _) => some ((tail.drop u).take g)
    | none => none
  else none

/-- `re.search`: the leftmost position with a match wins. -/
def reSearch (text : PyStr) (p fuel : Nat) : Option PyStr :=
  match fuel with
  | 0 => none
  | f + 1 =>
    match matchAt text p with
    | some gtext => some gtext
    | none => reSearch text (p + 1) f

/-- `anthropic_request` (anthropic_api.py lines 11-60): the network call is
the oracle `api`; on its response text, the first match of
```` ```python\s+(.*?)\s+``` ```` is extracted (group 1), and with no such
match the raw response is returned unmodified. -/
def anthropic_request (api : PyStr → PyStr → PyStr → PyStr)
    (pylint_warning code prompt : PyStr) : PyStr :=
  let text := api pylint_warning code prompt
  match reSearch text 0 (text.length + 1) with
  | some extracted => extracted
  | none => text

/-- A node of the Python `ast` tree: whether it is an `ast.FunctionDef`,
its `lineno`, its `end_lineno`, and its child nodes in source order.
Nodes other than function definitions carry their location too, though
`extract_method_from_line` only reads locations of `FunctionDef` nodes
(`ast.AsyncFunctionDef` and lambdas are not `ast.FunctionDef` and are
modelled with the flag false). -/
inductive PyNode where
  | mk : Bool → Int → Int → List PyNode → PyNode

/-- Whether the node is an `ast.FunctionDef`. -/
def PyNode.isFuncDef : PyNode → Bool
  | .mk b _ _ _ => b

/-- The node's `lineno` (1-based first line). -/
def PyNode.lineno : PyNode → Int
  | .mk _ l _ _ => l

/-- The node's `end_lineno` (1-based last line, inclusive). -/
def PyNode.endLineno : PyNode → Int
  | .mk _ _ e _ => e

/-- The node's child nodes, in source order. -/
def PyNode.children : PyNode → List PyNode
  | .mk _ _ _ cs => cs

/-- Total number of nodes in a forest (used as fuel for the breadth-first
walk). -/
def sizeL : List PyNode → Nat
  | [] => 0
  | (.mk _ _ _ cs) :: ns => 1 + sizeL cs + sizeL ns

/-- One breadth-first level step: all children of the nodes of a level, in
order, as produced by the deque of `ast.walk`. -/
def flatChildren (ns : List PyNode) : List PyNode :=
  ns.flatMap PyNode.children

/-- Fuelled breadth-first enumeration: the level itself, then the
enumeration of the next level. -/
def walkAux : Nat → List PyNode → List PyNode
  | _, [] => []
  | 0, _ => []
  | fuel + 1, ns => ns ++ walkAux fuel (flatChildren ns)

/-- `ast.walk` from a forest of roots: breadth-first order, each node
before its descendants, levels in order (`sizeL` fuel always suffices,
see `walk_cons`). -/
def walk (ns : List PyNode) : List PyNode :=
  walkAux (sizeL ns) ns

/-- The test applied to each walked node by `extract_method_from_line`
(fixes.py lines 170-171): an `ast.FunctionDef` whose
`lineno <= line_number <= end_lineno`. -/
def isHit (line_number : Int) (n : PyNode) : Bool :=
  n.isFuncDef && decide (n.lineno ≤ line_number) && decide (line_number ≤ n.endLineno)

/-- The `Context.LINE` arm of `extract_code_from_context` (fixes.py lines
143-146): `lines[line_number - 1]` on `file.readlines()`, with the
`IndexError` of an out-of-range index modelled as an error; on success the
span is the single physical line (with its newline). -/
def extract_line_context (file : PyStr) (line_number : Int) :
    Except PyErr (PyStr × Int × Int) :=
  match pyGet (readlines file) (line_number - 1) with
  | some l => Except.ok (l, line_number, line_number)
  | none => Except.error PyErr.indexError

/-- `extract_method_from_line` (fixes.py lines 154-178).  `tree` is the
`ast.parse` oracle (`none` models the `SyntaxError` it would raise).  The
first `FunctionDef` in `ast.walk` order containing the line is returned
with the span `source.split('\n')[node.lineno - 1:node.end_lineno]`
joined by newlines; with no such node the source falls back to
`extract_code_from_context(file_path, line_number, Context.LINE)`, which
is `extract_line_context`. -/
def extract_method_from_line (tree : Option PyNode) (file : PyStr)
    (line_number : Int) : Except PyErr (PyStr × Int × Int) :=
  match tree with
  | none => Except.error PyErr.syntaxError
  | some root =>
    match (walk [root]).find? (isHit line_number) with
    | some n =>
        Except.ok (joinNL (pySliceList (splitNL file) (n.lineno - 1) n.endLineno),
          n.lineno, n.endLineno)
    | none => extract_line_context file line_number

/-- `extract_code_from_context` (fixes.py lines 130-151): dispatch on the
context; unsupported contexts log and return `('', 0, 0)`. -/
def extract_code_from_context (tree : Option PyNode) (file : PyStr)
    (line_number : Int) : Context → Except PyErr (PyStr × Int × Int)
  | Context.LINE => extract_line_context file line_number
  | Context.METHOD => extract_method_from_line tree file line_number
  | _ => Except.ok ([], 0, 0)

/-- The scan of `get_starting_indentation` (fixes.py lines 211-214) over
the split lines: the first line with truthy `line.strip()` yields
`len(line) - len(line.lstrip())`; with none, 0. -/
def firstIndent : List PyStr → Nat
  | [] => 0
  | l :: ls => if isBlank l then firstIndent ls else l.length - (pyLstrip l).length

/-- `get_starting_indentation` (fixes.py lines 201-214). -/
def get_starting_indentation (code : PyStr) : Nat :=
  firstIndent (splitNL code)

/-- `indentation * ' '`. -/
def spaces (n : Nat) : PyStr := List.replicate n ' '

/-- `add_indentation` (fixes.py lines 217-230): every line with truthy
`line.strip()` is prefixed by the given number of spaces, blank lines are
kept verbatim, and a final newline is appended. -/
def add_indentation (code : PyStr) (indentation : Nat) : PyStr :=
  joinNL ((splitNL code).map (fun l => if isBlank l then l else spaces indentation ++ l)) ++ ['\n']

/-- `replace_code_in_file` (fixes.py lines 181-198): on the `readlines`
list, `del lines[code_start - 1:code_end]`, then
`lines.insert(code_start - 1, new_code)`, then `writelines` (plain
concatenation).  The `None` guard of line 194 is always taken here since
the model's line numbers are integers. -/
def replace_code_in_file (file : PyStr) (new_code : PyStr)
    (code_start code_end : Int) : PyStr :=
  let lines := readlines file
  let lines2 := pyDelSlice lines (code_start - 1) code_end
  let lines3 := pyInsert lines2 (code_start - 1) new_code
  lines3.flatten

/-- `check_python_file` (fixes.py lines 233-254): reading and compiling
happen inside the `try`; both `except` clauses (and `except Exception` in
particular) return `False`, so every modelled Python exception yields
`false` and the function always returns a boolean. -/
def check_python_file (readFile : Except PyErr PyStr)
    (compilePy : PyStr → Except PyErr Unit) : Bool :=
  match readFile with
  | Except.error _ => false
  | Except.ok script =>
    match compilePy script with
    | Except.ok _ => true
    | Except.error _ => false

/-- `apply_fix_to_warning` (fixes.py lines 112-127), on the single file
the warning names, whose pre-call content is `file`.  The result pairs the
file content on disk when the call ends with the exception propagating
out of it, if any: an error from span extraction propagates with the file
untouched, and a failed `assert check_python_file(file_path)` (line 127)
propagates an `AssertionError` with the newly written content still on
disk. -/
def apply_fix_to_warning (compilePy : PyStr → Except PyErr Unit)
    (tree : Option PyNode) (api : PyStr → PyStr → PyStr → PyStr)
    (fix : PylintFix) (w : Warning) (file : PyStr) : PyStr × Option PyErr :=
  if check_python_file (Except.ok file) compilePy then
    match extract_code_from_context tree file w.line_number fix.context with
    | Except.error e => (file, some e)
    | Except.ok (code, line_start, line_end) =>
      let new_code := anthropic_request api w.error_message code fix.prompt
      let indented_new_code := add_indentation new_code (get_starting_indentation code)
      let file2 := replace_code_in_file file indented_new_code line_start line_end
      if check_python_file (Except.ok file2) compilePy then (file2, none)
      else (file2, some PyErr.assertionError)
  else (file, none)

/-- Membership of a node in the subtree rooted at another node. -/
inductive InTree : PyNode → PyNode → Prop where
  | refl (n : PyNode) : InTree n n
  | child {m c n : PyNode} : c ∈ n.children → InTree m c → InTree m n

/-- Membership of a node in the subtrees of a forest. -/
def InForest (m : PyNode) (ns : List PyNode) : Prop :=
  ∃ r ∈ ns, InTree m r

/-- A child node's line range lies inside its parent's. -/
def childWithin (p c : PyNode) : Prop :=
  p.lineno ≤ c.lineno ∧ c.endLineno ≤ p.endLineno

/-- Two nodes cover disjoint line ranges. -/
def spanDisjoint (a b : PyNode) : Prop :=
  a.endLineno < b.lineno ∨ b.endLineno < a.lineno

/-- Well-formedness of a tree as produced by parsing real source: every
child range lies inside its parent's range, ranges of sibling subtrees
are pairwise disjoint, and the same holds recursively. -/
inductive WFNode : PyNode → Prop where
  | mk {n : PyNode} :
      (∀ c ∈ n.children, childWithin n c) →
      n.children.Pairwise spanDisjoint →
      (∀ c ∈ n.children, WFNode c) →
      WFNode n

/-- Well-formedness of a forest: every tree well-formed and the root
ranges pairwise disjoint. -/
def ForestWF (ns : List PyNode) : Prop :=
  (∀ n ∈ ns, WFNode n) ∧ ns.Pairwise spanDisjoint

/-- This definition follows the SPEC wording of claim C2, not the source:
the innermost function definition whose range contains the line is a
`FunctionDef` node containing the line whose range is contained in the
range of every `FunctionDef` node containing the line. -/
def IsInnermostFuncDef (root : PyNode) (line : Int) (n : PyNode) : Prop :=
  InTree n root ∧ isHit line n = true ∧
    ∀ m, InTree m root → isHit line m = true →
      m.lineno ≤ n.lineno ∧ n.endLineno ≤ m.endLineno

/-- The first non-blank line of a list of lines (used only to state
properties; the empty string if all are blank). -/
def firstNonBlank : List PyStr → PyStr
  | [] => []
  | l :: ls => if isBlank l then firstNonBlank ls else l

/-- Number of leading space characters of a line (used only to state
properties). -/
def leadingSpaceCount (l : PyStr) : Nat :=
  (l.takeWhile (fun c => c == ' ')).length

/-- A 50-line file, each line the single character x: the concrete file of
the end-to-end out-of-range scenario. -/
def file50 : PyStr := (List.replicate 50 (['x', '\n'])).flatten

/-- The `use-implicit-booleaness-not-comparison` fix of `PYLINT_FIXES`
(line context). -/
def exFixLine : PylintFix :=
  ⟨("use-implicit-booleaness-not-comparison").data, ("C1803").data, DEFAULT_PROMPT, Context.LINE⟩

/-- A warning referencing line 999 of the 50-line file. -/
def exWarn999 : Warning :=
  ⟨("a.py").data, 999, ("0").data, ("C1803").data, ("msg").data⟩

/-- A warning referencing line 1. -/
def exWarn1 : Warning :=
  ⟨("a.py").data, 1, ("0").data, ("C1803").data, ("msg").data⟩

/-- Compile oracle accepting exactly the one-line file `x = 1`. -/
def cexCompile : PyStr → Except PyErr Unit :=
  fun s => if s = ("x = 1\n").data then Except.ok () else Except.error PyErr.syntaxError

/-- Suggester oracle answering the syntactically broken text `x = (`. -/
def cexApi : PyStr → PyStr → PyStr → PyStr :=
  fun _ _ _ => ("x = (").data

/-- Compile oracle accepting exactly the one-line file `y = 2`. -/
def cexCompileW : PyStr → Except PyErr Unit :=
  fun s => if s = ("y = 2\n").data then Except.ok () else Except.error PyErr.syntaxError

/-- Suggester oracle answering the syntactically broken text `(`. -/
def cexApiW : PyStr → PyStr → PyStr → PyStr :=
  fun _ _ _ => ("(").data

/-- The inner function g of the nested-function example file: an
`ast.FunctionDef` spanning lines 2-3. -/
def exG : PyNode := PyNode.mk true 2 3 []

/-- The outer function f of the nested-function example file: an
`ast.FunctionDef` spanning lines 1-3, with g as its child. -/
def exF : PyNode := PyNode.mk true 1 3 [exG]

/-- The `ast.Module` root of the nested-function example file (not a
`FunctionDef`; its range covers the file). -/
def exTree : PyNode := PyNode.mk false 1 3 [exF]

/-- The nested-function example file: f on line 1, nested g on line 2, a
statement on line 3. -/
def exSrc : PyStr := ("def f():\n    def g():\n        x = 1\n").data

/-- The text of lines 1-3 of the example file (the span of f). -/
def exOuterText : PyStr := ("def f():\n    def g():\n        x = 1").data

/-- A report whose two warnings for the same file appear with descending
line numbers (5 then 3), so reversing them processes line 3 first. -/
def exReport : PyStr := ("a.py:5:0: R1711: m\na.py:3:0: R1711: m\n").data

/-- A suggester response whose fenced code block carries no language tag. -/
def exUntaggedResp : PyStr := ("Here\n```\nx = 1\n```\n").data

/-- Two warnings for the same file with ascending line numbers 3 and 5. -/
def exWarnAsc : List Warning :=
  [ ⟨("a.py").data, 3, ("0").data, ("R1711").data, ("m").data⟩,
    ⟨("a.py").data, 5, ("0").data, ("R1711").data, ("m").data⟩ ]

/-- Claim C6 (confirmed): the validator returns a boolean, true exactly
when the file could be read and its full text compiled without error;
every modelled Python exception (syntax error, decoding or read error) is
caught by the except clauses and yields false, so no exception escapes. -/
theorem check_python_file_true_iff_compiles (readFile : Except PyErr PyStr)
    (compilePy : PyStr → Except PyErr Unit) :
    check_python_file readFile compilePy = true ↔
      ∃ s, readFile = Except.ok s ∧ compilePy s = Except.ok () := by
  cases readFile with
  | error e => simp [check_python_file]
  | ok s =>
    cases h : compilePy s with
    | ok u => cases u; simp [check_python_file, h]
    | error e => simp [check_python_file, h]

/-- Claim C10 (confirmed): when the syntax pre-check fails, the fix
attempt leaves the file exactly unchanged and raises nothing, and its
outcome does not depend on the suggester oracle at all (no suggester call
is made and no write happens). -/
theorem precheck_fail_no_call_no_write (compilePy : PyStr → Except PyErr Unit)
    (tree : Option PyNode) (api api2 : PyStr → PyStr → PyStr → PyStr)
    (fix : PylintFix) (w : Warning) (file : PyStr)
    (h : check_python_file (Except.ok file) compilePy = false) :
    apply_fix_to_warning compilePy tree api fix w file = (file, none) ∧
      apply_fix_to_warning compilePy tree api fix w file =
        apply_fix_to_warning compilePy tree api2 fix w file := by
  constructor
  · unfold apply_fix_to_warning
    simp [h]
  · unfold apply_fix_to_warning
    simp [h]

/-- Witness for C10 at a concrete input: a file rejected by the compile
oracle is returned untouched, for two different suggester oracles. -/
theorem precheck_fail_no_call_no_write_witness :
    apply_fix_to_warning (fun _ => Except.error PyErr.syntaxError) none
        (fun _ _ _ => []) exFixLine exWarn1 (("x = (\n").data) = ((("x = (\n").data), none) ∧
      apply_fix_to_warning (fun _ => Except.error PyErr.syntaxError) none
          (fun _ _ _ => []) exFixLine exWarn1 (("x = (\n").data) =
        apply_fix_to_warning (fun _ => Except.error PyErr.syntaxError) none
          (fun _ _ _ => ("z").data) exFixLine exWarn1 (("x = (\n").data) :=
  precheck_fail_no_call_no_write (fun _ => Except.error PyErr.syntaxError) none
    (fun _ _ _ => []) (fun _ _ _ => ("z").data) exFixLine exWarn1 (("x = (\n").data) rfl

/-- Claim C1 (code bug): for the 50-line file and a warning at line 999,
span location does not fail safely: `lines[998]` raises an uncaught
`IndexError`, which propagates out of `apply_fix_to_warning` (crashing
the batch loop of `auto_fix`, which has no handler); the file is left
untouched only because the crash happens before any write. -/
theorem out_of_range_line_crashes_not_skipped :
    extract_code_from_context none file50 999 Context.LINE =
        Except.error PyErr.indexError ∧
      apply_fix_to_warning (fun _ => Except.ok ()) none (fun _ _ _ => [])
        exFixLine exWarn999 file50 = (file50, some PyErr.indexError) :=
  ⟨rfl, rfl⟩

/-- Claim C4, corrected (counterexample): a patch whose post-patch
validation fails is not reverted; the broken content is still on disk
when the failed assertion propagates. -/
theorem invalid_patch_not_reverted_cex :
    apply_fix_to_warning cexCompile none cexApi exFixLine exWarn1 (("x = 1\n").data) =
        ((("x = (\n").data), some PyErr.assertionError) ∧
      ("x = (\n").data ≠ ("x = 1\n").data :=
  ⟨rfl, by decide⟩

/-- Claim C4, amended: when the post-patch validation fails after a
successful extraction, `apply_fix_to_warning` raises an `AssertionError`
and leaves the freshly written (invalid) content on disk; the file is not
restored to its pre-patch content (and cannot equal it, since the
pre-check passed and the post-check failed). -/
theorem invalid_patch_leaves_broken_file (compilePy : PyStr → Except PyErr Unit)
    (tree : Option PyNode) (api : PyStr → PyStr → PyStr → PyStr)
    (fix : PylintFix) (w : Warning) (file code patched : PyStr) (ls le : Int)
    (hpre : check_python_file (Except.ok file) compilePy = true)
    (hx : extract_code_from_context tree file w.line_number fix.context =
      Except.ok (code, ls, le))
    (hpatched : patched = replace_code_in_file file
      (add_indentation (anthropic_request api w.error_message code fix.prompt)
        (get_starting_indentation code)) ls le)
    (hpost : check_python_file (Except.ok patched) compilePy = false) :
    apply_fix_to_warning compilePy tree api fix w file =
        (patched, some PyErr.assertionError) ∧
      patched ≠ file := by
  subst hpatched
  constructor
  · unfold apply_fix_to_warning
    rw [hpre]
    simp only [if_true]
    rw [hx]
    simp [hpost]
  · intro hEq
    rw [hEq] at hpost
    rw [hpre] at hpost
    cases hpost

/-- Witness for the amended C4 at a concrete input: the one-line file
`y = 2` is patched with the broken replacement `(` and the failing
post-check leaves `(` on disk with an `AssertionError`. -/
theorem invalid_patch_leaves_broken_file_witness :
    apply_fix_to_warning cexCompileW none cexApiW exFixLine exWarn1 (("y = 2\n").data) =
        ((("(\n").data), some PyErr.assertionError) ∧
      ("(\n").data ≠ ("y = 2\n").data :=
  invalid_patch_leaves_broken_file cexCompileW none cexApiW exFixLine exWarn1
    (("y = 2\n").data) (("y = 2\n").data) (("(\n").data) 1 1 rfl rfl rfl rfl

/-- Claim C9, amended: a report line is accepted exactly when the
stripped line splits on colons into at least five fields (a sixth or
later field is allowed and truncates the message) and the second field
parses as an integer; the skip-warning is logged exactly for lines with
at least five fields whose integer parse fails, so lines with fewer
fields are skipped silently; no line ever aborts the parse. -/
theorem parse_line_acceptance_iff (line : PyStr) :
    ((processLine line).1.isSome ↔
        5 ≤ (pySplitChar ':' (pyStrip line)).length ∧
          (pyInt ((pySplitChar ':' (pyStrip line)).getD 1 [])).isSome) ∧
      ((processLine line).2 = true ↔
        5 ≤ (pySplitChar ':' (pyStrip line)).length ∧
          pyInt ((pySplitChar ':' (pyStrip line)).getD 1 []) = none) := by
  by_cases h5 : 5 ≤ (pySplitChar ':' (pyStrip line)).length
  · cases hi : pyInt ((pySplitChar ':' (pyStrip line)).getD 1 []) with
    | some n =>
      simp only [processLine]
      rw [if_pos h5, hi]
      simp [h5, hi]
    | none =>
      simp only [processLine]
      rw [if_pos h5, hi]
      simp [h5, hi]
  · simp [processLine, h5]

/-- Claim C9, corrected (counterexample): the line with six colon fields
is accepted (with the message truncated at the next colon), and the
non-matching line `garbage` is skipped with no logged warning (the log
list is empty), contradicting exactly-five-fields acceptance and
logged-skip of every non-matching line. -/
theorem parse_silent_skip_cex :
    parse_pylint_warnings (("a.py:1:0: C1: m: extra\ngarbage\n").data) =
      ([⟨("a.py").data, 1, ("0").data, ("C1").data, ("m").data⟩], []) :=
  rfl

/-- Claim C5, amended: the engine processes warnings in the reverse of
report order, so within one file the processing order is strictly
descending in line number exactly when the report listed that file's
warnings in strictly ascending line order. -/
theorem processing_order_reverse_of_parse (ws : List Warning) (f : PyStr)
    (h : (ws.filter (fun w => w.file_path == f)).Pairwise
      (fun a b => a.line_number < b.line_number)) :
    ((warning_processing_order ws).filter (fun w => w.file_path == f)).Pairwise
      (fun a b => b.line_number < a.line_number) := by
  unfold warning_processing_order
  rw [List.filter_reverse]
  exact List.pairwise_reverse.mpr h

/-- Witness for the amended C5 at a concrete input: two warnings for one
file at ascending lines 3 and 5 are processed in descending order. -/
theorem processing_order_reverse_of_parse_witness :
    ((warning_processing_order exWarnAsc).filter
        (fun w => w.file_path == ("a.py").data)).Pairwise
      (fun a b => b.line_number < a.line_number) :=
  processing_order_reverse_of_parse exWarnAsc (("a.py").data) (by decide)

/-- Claim C5, corrected (counterexample): the report lists its two
warnings for the one file with lines 5 then 3; the engine then processes
line 3 before line 5, which is not descending order — the engine only
reverses the parsed order and never sorts. -/
theorem processing_order_not_sorted_cex :
    (warning_processing_order (parse_pylint_warnings exReport).1).map
        Warning.line_number = [3, 5] ∧
      ¬ ((warning_processing_order (parse_pylint_warnings exReport).1).Pairwise
        (fun a b => b.line_number < a.line_number)) :=
  ⟨rfl, by decide⟩

/-- With no occurrence of the fence anywhere up to the length of the
text, there is none at any position at all (beyond the length the
remaining text is empty). -/
theorem fence_not_prefix_of_all (text : PyStr)
    (h : ∀ p, p ≤ text.length → pyFence.isPrefixOf (text.drop p) = false) :
    ∀ p, pyFence.isPrefixOf (text.drop p) = false := by
  intro p
  by_cases hp : p ≤ text.length
  · exact h p hp
  · rw [List.drop_eq_nil_of_le (by omega)]
    rfl

/-- The fuelled regex search finds nothing when the fence literal occurs
nowhere in the text. -/
theorem reSearch_none_of_no_fence (text : PyStr)
    (h : ∀ p, pyFence.isPrefixOf (text.drop p) = false) :
    ∀ fuel p, reSearch text p fuel = none := by
  intro fuel
  induction fuel with
  | zero => intro p; rfl
  | succ f ih =>
    intro p
    have hm : matchAt text p = none := by
      unfold matchAt
      simp [h p]
    unfold reSearch
    rw [hm]
    exact ih (p + 1)

/-- Claim C7, amended: only blocks fenced exactly as ```` ```python ````
are ever extracted; any response in which that fence literal occurs
nowhere — including responses whose fenced block has no language tag — is
returned whole and unmodified, without raising. -/
theorem anthropic_request_raw_when_no_python_fence
    (api : PyStr → PyStr → PyStr → PyStr) (warnMsg codeTxt instr : PyStr)
    (h : ∀ p, p ≤ (api warnMsg codeTxt instr).length →
      pyFence.isPrefixOf ((api warnMsg codeTxt instr).drop p) = false) :
    anthropic_request api warnMsg codeTxt instr = api warnMsg codeTxt instr := by
  have hn := reSearch_none_of_no_fence (api warnMsg codeTxt instr)
    (fence_not_prefix_of_all _ h) ((api warnMsg codeTxt instr).length + 1) 0
  simp [anthropic_request, hn]

/-- Witness for the amended C7 at a concrete input: a plain-text response
is returned verbatim. -/
theorem anthropic_request_raw_when_no_python_fence_witness :
    anthropic_request (fun _ _ _ => ("hello").data) [] [] [] = ("hello").data :=
  anthropic_request_raw_when_no_python_fence (fun _ _ _ => ("hello").data) [] [] []
    (by decide)

/-- Claim C7, corrected (counterexample): the response contains a fenced
code block (with no language tag) whose content is `x = 1`, yet the
whole raw response is returned, not the block content. -/
theorem untagged_fence_not_extracted_cex :
    anthropic_request (fun _ _ _ => exUntaggedResp) [] [] [] = exUntaggedResp ∧
      exUntaggedResp ≠ ("x = 1").data :=
  ⟨rfl, by decide⟩

/-- Sanity check of the regex model against the Python engine: a
```` ```python ````-tagged block is extracted with the leading
whitespace of its first line consumed by the greedy `\s+`. -/
theorem anthropic_request_tagged_example :
    anthropic_request (fun _ _ _ => ("Fix:\n```python\n    x = 1\n```\nDone").data)
      [] [] [] = ("x = 1").data :=
  rfl

/-- Splitting never yields the empty list of fields. -/
theorem pySplitChar_ne_nil (sep : Char) (s : PyStr) : pySplitChar sep s ≠ [] := by
  induction s with
  | nil => simp [pySplitChar]
  | cons c cs ih =>
    simp only [pySplitChar]
    by_cases hc : c = sep
    · simp [hc]
    · simp only [hc, if_false]
      cases h : pySplitChar sep cs with
      | nil => simp
      | cons l ls => simp

/-- No field produced by splitting contains the separator. -/
theorem not_mem_of_mem_pySplitChar (sep : Char) :
    ∀ s l, l ∈ pySplitChar sep s → sep ∉ l := by
  intro s
  induction s with
  | nil =>
    intro l hl
    simp [pySplitChar] at hl
    subst hl
    simp
  | cons c cs ih =>
    intro l hl
    simp only [pySplitChar] at hl
    by_cases hc : c = sep
    · rw [if_pos hc] at hl
      rcases List.mem_cons.mp hl with h | h
      · subst h; simp
      · exact ih l h
    · rw [if_neg hc] at hl
      cases hsplit : pySplitChar sep cs with
      | nil => exact absurd hsplit (pySplitChar_ne_nil sep cs)
      | cons l0 ls =>
        rw [hsplit] at hl
        rcases List.mem_cons.mp hl with h | h
        · subst h
          intro hmem
          rcases List.mem_cons.mp hmem with h1 | h1
          · exact hc h1.symm
          · exact ih l0 (by rw [hsplit]; exact List.mem_cons_self l0 ls) h1
        · exact ih l (by rw [hsplit]; exact List.mem_cons.mpr (Or.inr h))

/-- A string without the separator splits into the single field itself. -/
theorem pySplitChar_of_not_mem (sep : Char) :
    ∀ l : PyStr, sep ∉ l → pySplitChar sep l = [l] := by
  intro l
  induction l with
  | nil => intro _; rfl
  | cons c cs ih =>
    intro h
    have hc : ¬(c = sep) := by
      intro he
      subst he
      exact h (List.mem_cons_self c cs)
    simp only [pySplitChar]
    rw [if_neg hc, ih (fun hm => h (List.mem_cons.mpr (Or.inr hm)))]

/-- Splitting a string that starts with a separator-free field followed by
the separator peels off that field. -/
theorem pySplitChar_append (sep : Char) : ∀ (l t : PyStr), sep ∉ l →
    pySplitChar sep (l ++ sep :: t) = l :: pySplitChar sep t := by
  intro l
  induction l with
  | nil =>
    intro t _
    simp [pySplitChar]
  | cons c cs ih =>
    intro t h
    have hc : ¬(c = sep) := by
      intro he
      subst he
      exact h (List.mem_cons_self c cs)
    simp only [List.cons_append, pySplitChar]
    rw [if_neg hc, List.append_eq, ih t (fun hm => h (List.mem_cons.mpr (Or.inr hm)))]

/-- Splitting on newlines inverts joining, for a non-empty list of
newline-free lines. -/
theorem splitNL_joinNL : ∀ ls : List PyStr, ls ≠ [] → (∀ l ∈ ls, ('\n') ∉ l) →
    splitNL (joinNL ls) = ls := by
  intro ls
  induction ls with
  | nil => intro h _; exact absurd rfl h
  | cons l ls ih =>
    intro _ hnl
    cases ls with
    | nil => exact pySplitChar_of_not_mem '\n' l (hnl l (by simp))
    | cons l2 rest =>
      show splitNL (l ++ '\n' :: joinNL (l2 :: rest)) = l :: l2 :: rest
      unfold splitNL
      rw [pySplitChar_append '\n' l (joinNL (l2 :: rest)) (hnl l (by simp))]
      have hrec := ih (by simp) (fun x hx => hnl x (List.mem_cons.mpr (Or.inr hx)))
      rw [show pySplitChar '\n' (joinNL (l2 :: rest)) =
        splitNL (joinNL (l2 :: rest)) from rfl, hrec]

/-- Appending one more line to a non-empty join inserts one newline. -/
theorem joinNL_concat : ∀ (ls : List PyStr) (x : PyStr), ls ≠ [] →
    joinNL (ls ++ [x]) = joinNL ls ++ '\n' :: x := by
  intro ls
  induction ls with
  | nil => intro x h; exact absurd rfl h
  | cons l ls ih =>
    intro x _
    cases ls with
    | nil => rfl
    | cons l2 rest =>
      show l ++ '\n' :: joinNL ((l2 :: rest) ++ [x]) =
        (l ++ '\n' :: joinNL (l2 :: rest)) ++ '\n' :: x
      rw [ih x (by simp)]
      simp

/-- The line structure of `add_indentation` output: exactly the input
lines, each non-blank one prefixed by the requested spaces and each blank
one verbatim, plus one final empty line from the appended newline. -/
theorem add_indentation_lines (code : PyStr) (ind : Nat) :
    splitNL (add_indentation code ind) =
      (splitNL code).map (fun l => if isBlank l then l else spaces ind ++ l) ++ [[]] := by
  unfold add_indentation
  have hmap_ne : (splitNL code).map
      (fun l => if isBlank l then l else spaces ind ++ l) ≠ [] := by
    intro h
    exact pySplitChar_ne_nil '\n' code (List.map_eq_nil_iff.mp h)
  rw [← joinNL_concat ((splitNL code).map
    (fun l => if isBlank l then l else spaces ind ++ l)) [] hmap_ne]
  apply splitNL_joinNL
  · simp
  · intro l hl
    rcases List.mem_append.mp hl with h | h
    · obtain ⟨l0, hl0, heq⟩ := List.mem_map.mp h
      subst heq
      by_cases hb : isBlank l0
      · simp only [hb, if_true]
        exact not_mem_of_mem_pySplitChar '\n' code l0 hl0
      · simp only [hb, if_false]
        intro hmem
        rcases List.mem_append.mp hmem with h1 | h1
        · simp [spaces, List.mem_replicate] at h1
        · exact not_mem_of_mem_pySplitChar '\n' code l0 hl0 h1
    · simp at h
      subst h
      simp

/-- Dropping a prefix cannot lengthen a list. -/
theorem dropWhile_length_le (p : Char → Bool) : ∀ l : PyStr,
    (l.dropWhile p).length ≤ l.length := by
  intro l
  induction l with
  | nil => exact Nat.le_refl _
  | cons c cs ih =>
    by_cases hc : p c = true
    · simp only [List.dropWhile_cons, hc, if_true, List.length_cons]
      omega
    · simp [List.dropWhile_cons, hc]

/-- The leading-whitespace count computed as a length difference equals
the length of the whitespace run. -/
theorem length_sub_dropWhile (p : Char → Bool) : ∀ l : PyStr,
    l.length - (l.dropWhile p).length = (l.takeWhile p).length := by
  intro l
  induction l with
  | nil => rfl
  | cons c cs ih =>
    by_cases hc : p c = true
    · have hle := dropWhile_length_le p cs
      simp only [List.dropWhile_cons, List.takeWhile_cons, hc, if_true, List.length_cons]
      omega
    · simp only [List.dropWhile_cons, List.takeWhile_cons, hc, if_false]
      simp

/-- `get_starting_indentation` returns the leading-whitespace count of
the first non-blank line (0 with no non-blank line). -/
theorem firstIndent_eq_takeWhile (ls : List PyStr) :
    firstIndent ls = ((firstNonBlank ls).takeWhile isPySpace).length := by
  induction ls with
  | nil => rfl
  | cons l rest ih =>
    by_cases hb : isBlank l
    · simp [firstIndent, firstNonBlank, hb, ih]
    · simp only [firstIndent, firstNonBlank, hb, if_false]
      exact length_sub_dropWhile isPySpace l

/-- Claim C3, amended: re-indentation performs no dedent at all — the
replacement text's lines are kept as they are, every non-blank line is
prefixed (on top of its existing indentation) with the original span's
indentation width, blank lines are kept verbatim, and a final empty line
is appended; the width is the leading-whitespace (not only space)
character count of the span's first non-blank line. -/
theorem add_indentation_no_dedent (replacement orig : PyStr) :
    splitNL (add_indentation replacement (get_starting_indentation orig)) =
        (splitNL replacement).map
          (fun l => if isBlank l then l
            else spaces (get_starting_indentation orig) ++ l) ++ [[]] ∧
      get_starting_indentation orig =
        ((firstNonBlank (splitNL orig)).takeWhile isPySpace).length :=
  ⟨add_indentation_lines replacement (get_starting_indentation orig),
    firstIndent_eq_takeWhile (splitNL orig)⟩

/-- Claim C3, corrected (counterexample): with the replacement indented
by four spaces and an original span indented by two, the claim (strip the
first non-blank line to zero, then prefix with the original width 2)
requires exactly 2 leading spaces on the first non-blank output line, but
the code produces 6 — nothing is stripped. -/
theorem add_indentation_dedent_cex :
    leadingSpaceCount (firstNonBlank (splitNL (add_indentation (("    x = 1").data)
        (get_starting_indentation (("  y = 2").data))))) = 6 ∧
      (6 : Nat) ≠ 2 :=
  ⟨rfl, by decide⟩

/-- Prefixing a line with `w` spaces gives at least `w` leading spaces. -/
theorem spaces_le_leadingSpaceCount : ∀ (w : Nat) (l : PyStr),
    w ≤ leadingSpaceCount (spaces w ++ l) := by
  intro w
  induction w with
  | zero => intro l; exact Nat.zero_le _
  | succ n ih =>
    intro l
    have hih := ih l
    simp only [leadingSpaceCount, spaces, List.replicate_succ, List.cons_append,
      List.takeWhile_cons] at hih ⊢
    simp only [beq_self_eq_true, if_true, List.length_cons]
    omega

/-- Claim C8 (confirmed): every non-blank line of the re-indented output
has at least `w` leading spaces, `w` being the indentation width passed
in from the original span. -/
theorem add_indentation_keeps_min_indent (code : PyStr) (w : Nat) (l : PyStr)
    (hmem : l ∈ splitNL (add_indentation code w)) (hnb : isBlank l = false) :
    w ≤ leadingSpaceCount l := by
  rw [add_indentation_lines] at hmem
  rcases List.mem_append.mp hmem with hin | hlast
  · obtain ⟨l0, hl0, heq⟩ := List.mem_map.mp hin
    subst heq
    by_cases hb : isBlank l0
    · rw [if_pos hb] at hnb
      rw [hb] at hnb
      cases hnb
    · rw [if_neg hb]
      exact spaces_le_leadingSpaceCount w l0
  · simp at hlast
    subst hlast
    simp [isBlank] at hnb

/-- Witness for C8 at a concrete input: the non-blank output line of
indenting the one-line replacement `x` by two has at least 2 leading
spaces. -/
theorem add_indentation_keeps_min_indent_witness :
    2 ≤ leadingSpaceCount (("  x").data) :=
  add_indentation_keeps_min_indent (("x").data) 2 (("  x").data) (by decide) (by decide)

/-- Children of an empty forest. -/
theorem flatChildren_nil : flatChildren [] = [] := rfl

/-- Children of a non-empty forest: the head's children first. -/
theorem flatChildren_cons (n : PyNode) (ns : List PyNode) :
    flatChildren (n :: ns) = n.children ++ flatChildren ns := by
  simp [flatChildren]

/-- Unfolding `sizeL` on the empty forest. -/
theorem sizeL_nil : sizeL [] = 0 := by simp [sizeL]

/-- Unfolding `sizeL` on a non-empty forest. -/
theorem sizeL_cons (b : Bool) (l e : Int) (cs ns : List PyNode) :
    sizeL (PyNode.mk b l e cs :: ns) = 1 + sizeL cs + sizeL ns := by simp [sizeL]

/-- A non-empty forest has at least one node. -/
theorem sizeL_pos (n : PyNode) (ns : List PyNode) : 0 < sizeL (n :: ns) := by
  cases n with
  | mk b l e cs => rw [sizeL_cons]; omega

/-- Only the empty forest has no nodes. -/
theorem sizeL_eq_nil : ∀ ns : List PyNode, sizeL ns = 0 → ns = [] := by
  intro ns h
  cases ns with
  | nil => rfl
  | cons n rest => exact absurd h (by have := sizeL_pos n rest; omega)

/-- Node count distributes over forest concatenation. -/
theorem sizeL_append : ∀ xs ys : List PyNode, sizeL (xs ++ ys) = sizeL xs + sizeL ys := by
  intro xs ys
  induction xs with
  | nil => rw [List.nil_append, sizeL_nil]; omega
  | cons n rest ih =>
    cases n with
    | mk b l e cs =>
      rw [List.cons_append, sizeL_cons, sizeL_cons, ih]
      omega

/-- Passing to the children loses the level's own nodes. -/
theorem sizeL_flatChildren_le : ∀ ns : List PyNode, sizeL (flatChildren ns) ≤ sizeL ns := by
  intro ns
  induction ns with
  | nil => rw [flatChildren_nil]
  | cons n rest ih =>
    cases n with
    | mk b l e cs =>
      rw [flatChildren_cons, sizeL_append]
      have hch : (PyNode.mk b l e cs).children = cs := rfl
      rw [hch, sizeL_cons]
      omega

/-- Passing to the children of a non-empty forest strictly decreases the
node count. -/
theorem sizeL_flatChildren_lt (n : PyNode) (ns : List PyNode) :
    sizeL (flatChildren (n :: ns)) < sizeL (n :: ns) := by
  cases n with
  | mk b l e cs =>
    rw [flatChildren_cons, sizeL_append]
    have hch : (PyNode.mk b l e cs).children = cs := rfl
    rw [hch, sizeL_cons]
    have := sizeL_flatChildren_le ns
    omega

/-- The fuelled walk of an empty forest is empty for any fuel. -/
theorem walkAux_nil : ∀ f : Nat, walkAux f [] = [] := by
  intro f
  cases f <;> rfl

/-- Any fuel at least the node count gives the same walk. -/
theorem walkAux_congr : ∀ (f g : Nat) (ns : List PyNode),
    sizeL ns ≤ f → sizeL ns ≤ g → walkAux f ns = walkAux g ns := by
  intro f
  induction f with
  | zero =>
    intro g ns h0 _
    have hnil : ns = [] := sizeL_eq_nil ns (Nat.le_zero.mp h0)
    subst hnil
    rw [walkAux_nil, walkAux_nil]
  | succ f ihf =>
    intro g ns hf hg
    cases ns with
    | nil => rw [walkAux_nil, walkAux_nil]
    | cons n rest =>
      have hpos := sizeL_pos n rest
      cases g with
      | zero => exact absurd hg (by omega)
      | succ g2 =>
        show (n :: rest) ++ walkAux f (flatChildren (n :: rest)) =
          (n :: rest) ++ walkAux g2 (flatChildren (n :: rest))
        have hlt := sizeL_flatChildren_lt n rest
        rw [ihf g2 (flatChildren (n :: rest)) (by omega) (by omega)]

/-- The walk of an empty forest. -/
theorem walk_nil : walk [] = [] := walkAux_nil _

/-- Unfolding of the breadth-first walk: the level itself, then the walk
of all its children. -/
theorem walk_cons (n : PyNode) (ns : List PyNode) :
    walk (n :: ns) = (n :: ns) ++ walk (flatChildren (n :: ns)) := by
  unfold walk
  have hpos := sizeL_pos n ns
  obtain ⟨k, hk⟩ : ∃ k, sizeL (n :: ns) = k + 1 := ⟨sizeL (n :: ns) - 1, by omega⟩
  rw [hk]
  show (n :: ns) ++ walkAux k (flatChildren (n :: ns)) =
    (n :: ns) ++ walkAux (sizeL (flatChildren (n :: ns))) (flatChildren (n :: ns))
  have hlt := sizeL_flatChildren_lt n ns
  rw [walkAux_congr k (sizeL (flatChildren (n :: ns))) (flatChildren (n :: ns))
    (by omega) (Nat.le_refl _)]

/-- Components of a successful hit test. -/
theorem isHit_elim {line : Int} {n : PyNode} (h : isHit line n = true) :
    n.isFuncDef = true ∧ n.lineno ≤ line ∧ line ≤ n.endLineno := by
  simp only [isHit, Bool.and_eq_true, decide_eq_true_eq] at h
  exact ⟨h.1.1, h.1.2, h.2⟩

/-- Range disjointness is symmetric. -/
theorem spanDisjoint_symm : Symmetric spanDisjoint := by
  intro a b h
  rcases h with h | h
  · exact Or.inr h
  · exact Or.inl h

/-- In a well-formed tree, every node of the subtree of the root has its
range inside the root's range. -/
theorem span_le_of_inTree : ∀ {m r : PyNode}, InTree m r → WFNode r →
    r.lineno ≤ m.lineno ∧ m.endLineno ≤ r.endLineno := by
  intro m r ht
  induction ht with
  | refl => intro _; exact ⟨Int.le_refl _, Int.le_refl _⟩
  | child hc ht ih =>
    intro hwf
    cases hwf with
    | mk hwithin hpw hrec =>
      have h1 := hwithin _ hc
      have h2 := ih (hrec _ hc)
      exact ⟨Int.le_trans h1.1 h2.1, Int.le_trans h2.2 h1.2⟩

/-- The children forest of a disjoint forest of well-formed trees is
itself pairwise disjoint. -/
theorem pairwise_flatChildren : ∀ ns : List PyNode, (∀ n ∈ ns, WFNode n) →
    ns.Pairwise spanDisjoint → (flatChildren ns).Pairwise spanDisjoint := by
  intro ns
  induction ns with
  | nil => intro _ _; rw [flatChildren_nil]; exact List.Pairwise.nil
  | cons n rest ih =>
    intro hwf hpw
    rw [flatChildren_cons, List.pairwise_append]
    have hwn := hwf n (List.mem_cons_self n rest)
    cases hpw with
    | cons hdis hpwrest =>
      refine ⟨?_, ih (fun x hx => hwf x (List.mem_cons.mpr (Or.inr hx))) hpwrest, ?_⟩
      · cases hwn with
        | mk _ hpwc _ => exact hpwc
      · intro a ha b hb
        simp only [flatChildren] at hb
        obtain ⟨r, hr, hbr⟩ := List.mem_flatMap.mp hb
        have hnr : spanDisjoint n r := hdis r hr
        have hwa : childWithin n a := by
          cases hwn with
          | mk hw _ _ => exact hw a ha
        have hwr := hwf r (List.mem_cons.mpr (Or.inr hr))
        have hwb : childWithin r b := by
          cases hwr with
          | mk hw _ _ => exact hw b hbr
        have hwa1 := hwa.1
        have hwa2 := hwa.2
        have hwb1 := hwb.1
        have hwb2 := hwb.2
        rcases hnr with h1 | h2
        · exact Or.inl (by omega)
        · exact Or.inr (by omega)

/-- Forest well-formedness passes to the children forest. -/
theorem forestWF_flatChildren {ns : List PyNode} (h : ForestWF ns) :
    ForestWF (flatChildren ns) := by
  refine ⟨?_, pairwise_flatChildren ns h.1 h.2⟩
  intro c hc
  simp only [flatChildren] at hc
  obtain ⟨r, hr, hcr⟩ := List.mem_flatMap.mp hc
  have hwr := h.1 r hr
  cases hwr with
  | mk _ _ hrec => exact hrec _ hcr

/-- A successful search in the first part of an appended list decides the
whole search. -/
theorem find?_append_left {α : Type} (p : α → Bool) :
    ∀ (l₁ l₂ : List α) (a : α), l₁.find? p = some a →
      (l₁ ++ l₂).find? p = some a := by
  intro l₁
  induction l₁ with
  | nil =>
    intro l₂ a h
    simp [List.find?] at h
  | cons x rest ih =>
    intro l₂ a h
    rw [List.cons_append]
    simp only [List.find?] at h ⊢
    cases hx : p x with
    | true => rw [hx] at h; exact h
    | false => rw [hx] at h; exact ih l₂ a h

/-- A failed search in the first part of an appended list passes to the
second part. -/
theorem find?_append_right {α : Type} (p : α → Bool) :
    ∀ (l₁ l₂ : List α), l₁.find? p = none →
      (l₁ ++ l₂).find? p = l₂.find? p := by
  intro l₁
  induction l₁ with
  | nil => intro l₂ _; rw [List.nil_append]
  | cons x rest ih =>
    intro l₂ h
    rw [List.cons_append]
    simp only [List.find?] at h ⊢
    cases hx : p x with
    | true => rw [hx] at h; simp at h
    | false => rw [hx] at h; exact ih l₂ h

/-- The first hit of the breadth-first walk of a well-formed forest is
the outermost hit: a `FunctionDef` containing the line whose range
contains the range of every `FunctionDef` of the forest containing the
line. -/
theorem find_walk_spec (line : Int) : ∀ (k : Nat) (ns : List PyNode), sizeL ns ≤ k →
    ForestWF ns → (∃ m, InForest m ns ∧ isHit line m = true) →
    ∃ n, (walk ns).find? (isHit line) = some n ∧ InForest n ns ∧ isHit line n = true ∧
      ∀ m, InForest m ns → isHit line m = true →
        n.lineno ≤ m.lineno ∧ m.endLineno ≤ n.endLineno := by
  intro k
  induction k with
  | zero =>
    intro ns hsz hwf hex
    have hnil : ns = [] := sizeL_eq_nil ns (Nat.le_zero.mp hsz)
    subst hnil
    obtain ⟨m, ⟨r, hr, hrt⟩, hmh⟩ := hex
    cases hr
  | succ k ih =>
    intro ns hsz hwf hex
    cases ns with
    | nil =>
      obtain ⟨m, ⟨r, hr, hrt⟩, hmh⟩ := hex
      cases hr
    | cons n0 rest =>
      by_cases hA : ∃ a ∈ (n0 :: rest), isHit line a = true
      · have hfs : ((n0 :: rest).find? (isHit line)).isSome := List.find?_isSome.mpr hA
        obtain ⟨a, ha⟩ := Option.isSome_iff_exists.mp hfs
        have hamem : a ∈ (n0 :: rest) := List.mem_of_find?_eq_some ha
        have hahit : isHit line a = true := List.find?_some ha
        refine ⟨a, ?_, ⟨a, hamem, InTree.refl a⟩, hahit, ?_⟩
        · rw [walk_cons]
          exact find?_append_left (isHit line) (n0 :: rest) _ a ha
        · rintro m ⟨r, hrmem, hrtree⟩ hmhit
          have hwfr : WFNode r := hwf.1 r hrmem
          have hspan := span_le_of_inTree hrtree hwfr
          have hmc := isHit_elim hmhit
          have hac := isHit_elim hahit
          have hspan1 := hspan.1
          have hspan2 := hspan.2
          have hmc1 := hmc.2.1
          have hmc2 := hmc.2.2
          have hac1 := hac.2.1
          have hac2 := hac.2.2
          have har : a = r := by
            by_contra hne
            have hd := List.Pairwise.forall spanDisjoint_symm hwf.2 hamem hrmem hne
            rcases hd with h1 | h2
            · omega
            · omega
          subst har
          exact ⟨hspan1, hspan2⟩
      · push_neg at hA
        have hA2 : ∀ a ∈ (n0 :: rest), ¬ isHit line a = true := by
          intro a hmem
          simp [hA a hmem]
        have hnone : (n0 :: rest).find? (isHit line) = none :=
          List.find?_eq_none.mpr hA2
        obtain ⟨m, ⟨r, hrmem, hrtree⟩, hmhit⟩ := hex
        have hm_flat : InForest m (flatChildren (n0 :: rest)) := by
          cases hrtree with
          | refl => exact absurd hmhit (hA2 m hrmem)
          | child hc ht =>
            refine ⟨_, ?_, ht⟩
            simp only [flatChildren]
            exact List.mem_flatMap.mpr ⟨r, hrmem, hc⟩
        have hwf2 := forestWF_flatChildren hwf
        have hsz2 : sizeL (flatChildren (n0 :: rest)) ≤ k := by
          have := sizeL_flatChildren_lt n0 rest
          omega
        obtain ⟨n, hfind, hnf, hnhit, hmax⟩ :=
          ih (flatChildren (n0 :: rest)) hsz2 hwf2 ⟨m, hm_flat, hmhit⟩
        refine ⟨n, ?_, ?_, hnhit, ?_⟩
        · rw [walk_cons]
          rw [find?_append_right (isHit line) (n0 :: rest) _ hnone]
          exact hfind
        · obtain ⟨c, hcmem, hct⟩ := hnf
          simp only [flatChildren] at hcmem
          obtain ⟨r2, hr2mem, hcr2⟩ := List.mem_flatMap.mp hcmem
          exact ⟨r2, hr2mem, InTree.child hcr2 hct⟩
        · rintro m2 ⟨r2, hr2mem, hr2tree⟩ hm2hit
          cases hr2tree with
          | refl => exact absurd hm2hit (hA2 m2 hr2mem)
          | child hc ht =>
            refine hmax m2 ⟨_, ?_, ht⟩ hm2hit
            simp only [flatChildren]
            exact List.mem_flatMap.mpr ⟨r2, hr2mem, hc⟩

/-- Claim C2, amended: for a well-formed tree (as `ast.parse` produces on
a parseable file) and a line contained in at least one `FunctionDef`,
`extract_method_from_line` returns the span of the OUTERMOST such
function definition — the one whose range contains the range of every
`FunctionDef` containing the line — as the slice of the file's lines from
its signature line through its last body line inclusive; the innermost
one is returned only when no nesting is involved. -/
theorem extract_method_outermost (file : PyStr) (root : PyNode) (line : Int)
    (hwf : WFNode root)
    (hex : ∃ m, InTree m root ∧ isHit line m = true) :
    ∃ n, InTree n root ∧ isHit line n = true ∧
      (∀ m, InTree m root → isHit line m = true →
        n.lineno ≤ m.lineno ∧ m.endLineno ≤ n.endLineno) ∧
      extract_method_from_line (some root) file line =
        Except.ok (joinNL (pySliceList (splitNL file) (n.lineno - 1) n.endLineno),
          n.lineno, n.endLineno) := by
  have hfwf : ForestWF [root] := by
    refine ⟨?_, ?_⟩
    · intro x hx
      rw [List.mem_singleton] at hx
      subst hx
      exact hwf
    · exact List.Pairwise.cons (fun b hb => absurd hb (List.not_mem_nil b)) List.Pairwise.nil
  obtain ⟨m0, hm0t, hm0h⟩ := hex
  obtain ⟨n, hfind, hnf, hnhit, hmax⟩ := find_walk_spec line (sizeL [root]) [root]
    (Nat.le_refl _) hfwf ⟨m0, ⟨root, List.mem_cons_self root [], hm0t⟩, hm0h⟩
  obtain ⟨r, hr, hnt⟩ := hnf
  rw [List.mem_singleton] at hr
  rw [hr] at hnt
  refine ⟨n, hnt, hnhit, ?_, ?_⟩
  · intro m hmt hmh
    exact hmax m ⟨root, List.mem_cons_self root [], hmt⟩ hmh
  · simp only [extract_method_from_line]
    rw [hfind]

/-- The inner example function is well-formed. -/
theorem exG_wf : WFNode exG := by
  refine WFNode.mk ?_ ?_ ?_
  · intro c hc
    exact absurd hc (by simp [exG, PyNode.children])
  · exact List.Pairwise.nil
  · intro c hc
    exact absurd hc (by simp [exG, PyNode.children])

/-- The outer example function is well-formed. -/
theorem exF_wf : WFNode exF := by
  refine WFNode.mk ?_ ?_ ?_
  · intro c hc
    have hceq : c = exG := by simpa [exF, PyNode.children] using hc
    subst hceq
    exact ⟨by decide, by decide⟩
  · exact List.Pairwise.cons (fun b hb => absurd hb (List.not_mem_nil b)) List.Pairwise.nil
  · intro c hc
    have hceq : c = exG := by simpa [exF, PyNode.children] using hc
    subst hceq
    exact exG_wf

/-- The example module tree is well-formed. -/
theorem exTree_wf : WFNode exTree := by
  refine WFNode.mk ?_ ?_ ?_
  · intro c hc
    have hceq : c = exF := by simpa [exTree, PyNode.children] using hc
    subst hceq
    exact ⟨by decide, by decide⟩
  · exact List.Pairwise.cons (fun b hb => absurd hb (List.not_mem_nil b)) List.Pairwise.nil
  · intro c hc
    have hceq : c = exF := by simpa [exTree, PyNode.children] using hc
    subst hceq
    exact exF_wf

/-- Witness for the amended C2 at a concrete input: on the
nested-function example file and line 3, the theorem applies and yields
the outermost containing function. -/
theorem extract_method_outermost_witness :
    ∃ n, InTree n exTree ∧ isHit 3 n = true ∧
      (∀ m, InTree m exTree → isHit 3 m = true →
        n.lineno ≤ m.lineno ∧ m.endLineno ≤ n.endLineno) ∧
      extract_method_from_line (some exTree) exSrc 3 =
        Except.ok (joinNL (pySliceList (splitNL exSrc) (n.lineno - 1) n.endLineno),
          n.lineno, n.endLineno) :=
  extract_method_outermost exSrc exTree 3 exTree_wf
    ⟨exF, InTree.child (List.mem_cons_self exF []) (InTree.refl exF), by decide⟩

/-- Claim C2, corrected (counterexample): on the example file, line 3
lies in nested functions f (lines 1-3) and g (lines 2-3); the innermost
function containing line 3 is g, whose span starts at line 2, but
`extract_method_from_line` returns the span (1, 3) of the outermost
function f, because `ast.walk` enumerates breadth-first and f is met
first. -/
theorem extract_method_not_innermost_cex :
    extract_method_from_line (some exTree) exSrc 3 = Except.ok (exOuterText, 1, 3) ∧
      IsInnermostFuncDef exTree 3 exG ∧ exG.lineno = 2 ∧ ((2 : Int)) ≠ 1 := by
  refine ⟨?_, ⟨?_, by decide, ?_⟩, rfl, by decide⟩
  · have hw : walk [exTree] = [exTree, exF, exG] := by
      rw [walk_cons]
      rw [show flatChildren [exTree] = [exF] from rfl]
      rw [walk_cons]
      rw [show flatChildren [exF] = [exG] from rfl]
      rw [walk_cons]
      rw [show flatChildren [exG] = [] from rfl]
      rw [walk_nil]
      rfl
    simp only [extract_method_from_line]
    rw [hw]
    rfl
  · exact InTree.child (List.mem_cons_self exF [])
      (InTree.child (List.mem_cons_self exG []) (InTree.refl exG))
  · intro m hmt hmh
    cases hmt with
    | refl => exact absurd hmh (by decide)
    | child hc ht =>
      rename_i c
      have hceq : c = exF := by simpa [exTree, PyNode.children] using hc
      subst hceq
      cases ht with
      | refl => exact ⟨by decide, by decide⟩
      | child hc2 ht2 =>
        rename_i c2
        have hceq2 : c2 = exG := by simpa [exF, PyNode.children] using hc2
        subst hceq2
        cases ht2 with
        | refl => exact ⟨Int.le_refl _, Int.le_refl _⟩
        | child hc3 ht3 =>
          exact absurd hc3 (by simp [exG, PyNode.children])
